import Mathlib

/-!
Verification of the rule-based file-organization engine (tag predicates,
events, file-action executors, activity log, scheduler) against its
natural-language specification.  The Rust sources are shallowly embedded:
filesystem reads are a read-only environment (`FSEnv`), filesystem writes
thread an explicit state (`FS`), fallible calls return `Except String`,
and the `&mut Item` threading of the predicate engine returns the updated
item alongside each result.
-/

set_option autoImplicit false

namespace Course

/-- Filesystem paths, modelled as lists of components. -/
abbrev FsPath := List String

/-- Rust `PathExt::name` / `Path::file_name` (lossy conversion is the identity here). -/
def pathName (p : FsPath) : Option String :=
  p.getLast?

/-- Rust `PathExt::ext` / `Path::extension` on the final component: the portion after
the final dot, none when there is no dot or the only dot starts a hidden name. -/
def pathExt (p : FsPath) : Option String :=
  match p.getLast? with
  | none => none
  | some name =>
    match name.splitOn "." with
    | [] => none
    | [_] => none
    | first :: rest =>
      if first = "" ∧ rest.length = 1 then none
      else rest.getLast?

/-- Rust `FileType` from `item.rs`. -/
inductive FileType where
  | File
  | Dir
  | Symlink
  deriving DecidableEq

/-- Result of one `symlink_metadata` call: file type plus timestamps. -/
structure Metadata where
  fileType : FileType
  created : Nat
  modified : Nat
  deriving DecidableEq

/-- Rust `infer::MatcherType` of the content-sniffing crate. -/
inductive MatcherType where
  | App
  | Archive
  | Audio
  | Book
  | Custom
  | Doc
  | Font
  | Image
  | Text
  | Video
  deriving DecidableEq

/-- Read-only snapshot of the filesystem / clock, giving the results of every
primitive read the predicate engine and directory lister perform. -/
structure FSEnv where
  symlinkMeta : FsPath → Except String Metadata
  metaCreated : FsPath → Except String Nat
  dirSize : FsPath → Except String Nat
  pathIsDir : FsPath → Bool
  childCount : FsPath → Except String Nat
  inferGet : FsPath → Except String (Option MatcherType)
  readDir : FsPath → Except String (List String)
  now : Nat

/-- Rust `Item` from `item.rs`: snapshot of information about a certain file. -/
structure Item where
  path : FsPath
  file_type : FileType
  size? : Option Nat
  creation_time : Nat
  modified_time : Nat
  deriving DecidableEq

/-- Rust `Item::new`: type and times fixed from one `symlink_metadata` call, size not computed. -/
def Item.new (env : FSEnv) (path : FsPath) : Except String Item := do
  let metadata ← env.symlinkMeta path
  .ok { path := path
      , file_type := metadata.fileType
      , size? := none
      , creation_time := metadata.created
      , modified_time := metadata.modified }

/-- Rust `Item::new_with_size`: `fs_extra::dir::get_size` first, then `Item::new`. -/
def Item.new_with_size (env : FSEnv) (path : FsPath) : Except String Item := do
  let size ← env.dirSize path
  let item ← Item.new env path
  .ok { item with size? := some size }

/-- Rust `Item::name`. -/
def Item.name (item : Item) : Option String :=
  pathName item.path

/-- Rust `Item::size`: return the cached size, otherwise replace the whole snapshot
by `Item::new_with_size` and return its size (the final branch is the
`unwrap` that can never fail). -/
def Item.size (env : FSEnv) (item : Item) : Except String (Nat × Item) :=
  match item.size? with
  | some size => .ok (size, item)
  | none =>
    match Item.new_with_size env item.path with
    | .ok item2 =>
      match item2.size? with
      | some size => .ok (size, item2)
      | none => .error "called unwrap on a None value"
    | .error e => .error e

/-- Rust `Base` from `tag.rs` (`Type` is spelt `Typ`; `Byte` and `Duration` are `Nat`). -/
inductive Base where
  | Typ (file_type : FileType)
  | Name (name : String)
  | SizeLT (byte : Nat)
  | SizeGT (byte : Nat)
  | Extension (extensions : List String)
  | ChildrenCountLT (count : Nat)
  | ChildrenCountET (count : Nat)
  | ChildrenCountGT (count : Nat)
  | LifetimeLT (duration : Nat)
  | LifetimeGT (duration : Nat)
  | IsImage
  | IsVideo
  | IsAudio
  | IsDocument
  | IsArchive
  | IsBook
  deriving DecidableEq

/-- Rust `is_lifetime` from `tag.rs`: `duration_since` fails when creation is in the future. -/
def is_lifetime (env : FSEnv) (path : FsPath) (ordering : Ordering) (duration : Nat) :
    Except String Bool := do
  let created ← env.metaCreated path
  if env.now < created then .error "second time provided was later than self"
  else .ok (decide (compare (env.now - created) duration = ordering))

/-- Rust `is_size` from `tag.rs`: compares the (lazily computed, snapshot-replacing) size. -/
def is_size (env : FSEnv) (item : Item) (ordering : Ordering) (byte : Nat) :
    Except String (Bool × Item) := do
  let (size, item2) ← Item.size env item
  .ok (decide (compare size byte = ordering), item2)

/-- Rust `is_children_count` from `tag.rs`: `false` without reading when not a directory. -/
def is_children_count (env : FSEnv) (path : FsPath) (ordering : Ordering) (count : Nat) :
    Except String Bool :=
  if env.pathIsDir path then do
    let c ← env.childCount path
    .ok (decide (compare c count = ordering))
  else .ok false

/-- Rust `is_matcher_type` from `tag.rs`: an unrecognized format is an error, not `false`. -/
def is_matcher_type (env : FSEnv) (path : FsPath) (tp : MatcherType) : Except String Bool := do
  let sniffed ← env.inferGet path
  match sniffed with
  | some t => .ok (decide (t = tp))
  | none => .error "Unknown file format"

/-- Rust `Base::is` from `tag.rs`. -/
def Base.is (env : FSEnv) (b : Base) (item : Item) : Except String (Bool × Item) :=
  match b with
  | .Typ file_type => .ok (decide (item.file_type = file_type), item)
  | .Name name => .ok (decide (item.name = some name), item)
  | .Extension extensions =>
    .ok (decide (item.file_type = .File) &&
      (match pathExt item.path with
       | some ext => extensions.contains ext
       | none => false), item)
  | .SizeLT byte => is_size env item .lt byte
  | .SizeGT byte => is_size env item .gt byte
  | .ChildrenCountLT count => do
    let b2 ← is_children_count env item.path .lt count
    .ok (b2, item)
  | .ChildrenCountET count => do
    let b2 ← is_children_count env item.path .eq count
    .ok (b2, item)
  | .ChildrenCountGT count => do
    let b2 ← is_children_count env item.path .gt count
    .ok (b2, item)
  | .LifetimeLT duration => do
    let b2 ← is_lifetime env item.path .lt duration
    .ok (b2, item)
  | .LifetimeGT duration => do
    let b2 ← is_lifetime env item.path .gt duration
    .ok (b2, item)
  | .IsImage => do
    let b2 ← is_matcher_type env item.path .Image
    .ok (b2, item)
  | .IsVideo => do
    let b2 ← is_matcher_type env item.path .Video
    .ok (b2, item)
  | .IsAudio => do
    let b2 ← is_matcher_type env item.path .Audio
    .ok (b2, item)
  | .IsDocument => do
    let b2 ← is_matcher_type env item.path .Doc
    .ok (b2, item)
  | .IsArchive => do
    let b2 ← is_matcher_type env item.path .Archive
    .ok (b2, item)
  | .IsBook => do
    let b2 ← is_matcher_type env item.path .Book
    .ok (b2, item)

/-- Rust `Tag` from `tag.rs`; equality is structural (derived `PartialEq`). -/
structure Tag where
  name : String
  desc : String
  basis : Base
  deriving DecidableEq

/-- Rust `Tag::is`. -/
def Tag.is (env : FSEnv) (t : Tag) (item : Item) : Except String (Bool × Item) :=
  Base.is env t.basis item

/-- Rust `Tag::dummy`, the placeholder tag (string contents as in the source file). -/
def Tag.dummy : Tag :=
  { name := "ğŸ§± Dummy"
  , desc := "An object with the name \x27dummy.test\x27. Used as a placeholder inside events, usually you would want to replace it with another useful tag."
  , basis := Base.Name "dummy.test" }

/-- Rust `SingleTag` from `tag.rs`: one signed term of a tag expression. -/
structure SingleTag where
  tag : Tag
  used : Bool
  deriving DecidableEq

/-- Rust `SingleTag::default`. -/
def SingleTag.default : SingleTag :=
  { tag := Tag.dummy, used := true }

/-- Rust `SingleTag::is`: the basis result compared with the `used` sign. -/
def SingleTag.is (env : FSEnv) (s : SingleTag) (item : Item) : Except String (Bool × Item) := do
  let (b, item2) ← Tag.is env s.tag item
  .ok (decide (b = s.used), item2)

/-- Rust `TagExpr` from `tag.rs` (tuple fields `.0`/`.1` named `head`/`rest`). -/
structure TagExpr where
  head : SingleTag
  rest : List SingleTag
  deriving DecidableEq

/-- Derived `TagExpr::default`. -/
def TagExpr.default : TagExpr :=
  { head := SingleTag.default, rest := [] }

/-- Rust `TagExpr::new`. -/
def TagExpr.new (tag : Tag) (used : Bool) : TagExpr :=
  { head := { tag := tag, used := used }, rest := [] }

/-- The `for` loop of `TagExpr::is`: `result = result && single.is(item)?`,
where the Rust `&&` short-circuits, so once `result` is `false` the remaining
terms are neither evaluated nor allowed to mutate the item or to fail. -/
def TagExpr.isAux (env : FSEnv) (singles : List SingleTag) (result : Bool) (item : Item) :
    Except String (Bool × Item) :=
  match singles with
  | [] => .ok (result, item)
  | single :: rest =>
    if result then
      match SingleTag.is env single item with
      | .ok (b, item2) => TagExpr.isAux env rest b item2
      | .error e => .error e
    else TagExpr.isAux env rest false item

/-- Rust `TagExpr::is`. -/
def TagExpr.is (env : FSEnv) (e : TagExpr) (item : Item) : Except String (Bool × Item) := do
  let (result, item2) ← SingleTag.is env e.head item
  TagExpr.isAux env e.rest result item2

/-- Rust `TagExpr::has`: structural match against the head or any rest term. -/
def TagExpr.has (e : TagExpr) (t : Tag) : Bool :=
  decide (e.head.tag = t) || e.rest.any (fun single => decide (single.tag = t))

/-- Rust `TagExpr::remove`: a matching head is replaced by `rest.remove(0)` when rest
is non-empty; otherwise the first matching rest term is removed. -/
def TagExpr.remove (e : TagExpr) (t : Tag) : TagExpr :=
  if e.head.tag = t ∧ e.rest ≠ [] then
    { head := e.rest.headD e.head, rest := e.rest.tail }
  else
    match e.rest.findIdx? (fun single => decide (single.tag = t)) with
    | some index => { e with rest := e.rest.eraseIdx index }
    | none => e

/-- Rust `TagExpr::push`. -/
def TagExpr.push (e : TagExpr) (tag : Tag) (used : Bool) : TagExpr :=
  { e with rest := e.rest ++ [{ tag := tag, used := used }] }

/-- Spec-side reference semantics for a tag expression (written from the spec,
to be compared with `TagExpr.is`): evaluate every term in sequence, threading
the item, and conjoin the signed results with no short-circuiting. -/
def evalAllTerms (env : FSEnv) (singles : List SingleTag) (item : Item) :
    Except String (Bool × Item) :=
  match singles with
  | [] => .ok (true, item)
  | single :: rest => do
    let (b, item2) ← SingleTag.is env single item
    let (bs, item3) ← evalAllTerms env rest item2
    .ok (b && bs, item3)

/-- Number of terms of a tag expression whose tag structurally equals `t`. -/
def tagCount (e : TagExpr) (t : Tag) : Nat :=
  (if e.head.tag = t then 1 else 0) + e.rest.countP (fun single => decide (single.tag = t))

/-- One filesystem entry: a file with opaque content, or a directory entry
(children are listed separately; a copied directory moves as one entry). -/
inductive FSEntry where
  | file (content : Nat)
  | dir
  deriving DecidableEq

/-- Mutable filesystem state threaded through the file-action executors. -/
structure FS where
  entries : List (FsPath × FSEntry)
  deriving DecidableEq

/-- First entry recorded for a path, if any. -/
def FS.lookup (fs : FS) (p : FsPath) : Option FSEntry :=
  match fs.entries.find? (fun e => decide (e.1 = p)) with
  | some e => some e.2
  | none => none

/-- Rust `Path::exists`. -/
def FS.exists_ (fs : FS) (p : FsPath) : Bool :=
  (fs.lookup p).isSome

/-- Rust `Path::is_dir`. -/
def FS.is_dir (fs : FS) (p : FsPath) : Bool :=
  decide (fs.lookup p = some .dir)

/-- Record `p ↦ e`, shadowing any previous entry at `p`. -/
def FS.insert (fs : FS) (p : FsPath) (e : FSEntry) : FS :=
  { entries := (p, e) :: fs.entries.filter (fun ent => decide (ent.1 ≠ p)) }

/-- Remove the entry at `p`. -/
def FS.remove (fs : FS) (p : FsPath) : FS :=
  { entries := fs.entries.filter (fun ent => decide (ent.1 ≠ p)) }

/-- Model of `fs_extra::copy_items` on one source: the entry lands at the
join of the destination directory and the source file name; an existing target is replaced when
`options.overwrite`, silently kept when `options.skip_exist`, and an error
otherwise; a missing source is an error. -/
def copyItems (src dest : FsPath) (overwrite skipExist : Bool) (fs : FS) : Except String FS :=
  match fs.lookup src, pathName src with
  | some entry, some n =>
    let target := dest ++ [n]
    if fs.exists_ target then
      if overwrite then .ok (fs.insert target entry)
      else if skipExist then .ok fs
      else .error "Path exists"
    else .ok (fs.insert target entry)
  | _, _ => .error "Path does not exist"

/-- Rust `fs_extra::move_items`: like `copyItems` but the source entry is removed. -/
def moveItems (src dest : FsPath) (overwrite skipExist : Bool) (fs : FS) : Except String FS :=
  match copyItems src dest overwrite skipExist fs with
  | .ok fs2 => .ok (fs2.remove src)
  | .error e => .error e

/-- Rust `trash::delete` on an existing path: the entry is removed. -/
def trashDelete (p : FsPath) (fs : FS) : Except String FS :=
  .ok (fs.remove p)

/-- Per-item outcome type `SkippableResult` (errors carried as strings). -/
inductive SkippableResult (T : Type) where
  | Ok (val : T)
  | Skipped
  | Err (e : String)
  deriving DecidableEq

namespace RuleIter

/-- Body of the per-file closure of `copy` in `rule.rs`.  Note the options are
`fs_extra::dir::CopyOptions::new()`, whose `overwrite` defaults false
regardless of the `overwrite` argument. -/
def copyStep (dest : FsPath) (overwrite : Bool) (file : FsPath) (fs : FS) :
    SkippableResult FsPath × FS :=
  match pathName file with
  | some file_name =>
    if fs.is_dir dest then
      if !overwrite && fs.exists_ (dest ++ [file_name]) then (.Skipped, fs)
      else
        match copyItems file dest false false fs with
        | .ok fs2 => (.Ok file, fs2)
        | .error e => (.Err e, fs)
    else (.Err "is not a directory", fs)
  | none => (.Err "has no file name", fs)

/-- Rust `copy` from `rule.rs`: the per-file closure mapped over the batch in order,
filesystem effects threaded left through right. -/
def copy (files : List FsPath) (dest : FsPath) (overwrite : Bool) (fs : FS) :
    List (SkippableResult FsPath) × FS :=
  match files with
  | [] => ([], fs)
  | file :: rest =>
    let r := copyStep dest overwrite file fs
    let rs := copy rest dest overwrite r.2
    (r.1 :: rs.1, rs.2)

/-- Body of the per-file closure of `mv` in `rule.rs` (default options again). -/
def mvStep (dest : FsPath) (overwrite : Bool) (file : FsPath) (fs : FS) :
    SkippableResult FsPath × FS :=
  match pathName file with
  | some file_name =>
    if fs.is_dir dest then
      if !overwrite && fs.exists_ (dest ++ [file_name]) then (.Skipped, fs)
      else
        match moveItems file dest false false fs with
        | .ok fs2 => (.Ok file, fs2)
        | .error e => (.Err e, fs)
    else (.Err "is not a directory", fs)
  | none => (.Err "has no file name", fs)

/-- Rust `mv` from `rule.rs`. -/
def mv (files : List FsPath) (dest : FsPath) (overwrite : Bool) (fs : FS) :
    List (SkippableResult FsPath) × FS :=
  match files with
  | [] => ([], fs)
  | file :: rest =>
    let r := mvStep dest overwrite file fs
    let rs := mv rest dest overwrite r.2
    (r.1 :: rs.1, rs.2)

/-- Body of the per-file closure of `trash` in `rule.rs`. -/
def trashStep (file : FsPath) (fs : FS) : SkippableResult FsPath × FS :=
  if fs.exists_ file then
    match trashDelete file fs with
    | .ok fs2 => (.Ok file, fs2)
    | .error e => (.Err e, fs)
  else (.Skipped, fs)

/-- Rust `trash` from `rule.rs`. -/
def trash (files : List FsPath) (fs : FS) : List (SkippableResult FsPath) × FS :=
  match files with
  | [] => ([], fs)
  | file :: rest =>
    let r := trashStep file fs
    let rs := trash rest r.2
    (r.1 :: rs.1, rs.2)

end RuleIter

namespace EventIter

/-- Body of the per-file closure of `copy` in `event.rs`: identical with the
`rule.rs` version except that the `overwrite` flag is passed into
`CopyOptions`. -/
def copyStep (dest : FsPath) (overwrite : Bool) (file : FsPath) (fs : FS) :
    SkippableResult FsPath × FS :=
  match pathName file with
  | some file_name =>
    if fs.is_dir dest then
      if !overwrite && fs.exists_ (dest ++ [file_name]) then (.Skipped, fs)
      else
        match copyItems file dest overwrite false fs with
        | .ok fs2 => (.Ok file, fs2)
        | .error e => (.Err e, fs)
    else (.Err "is not a directory", fs)
  | none => (.Err "has no file name", fs)

/-- Rust `copy` from `event.rs`. -/
def copy (files : List FsPath) (dest : FsPath) (overwrite : Bool) (fs : FS) :
    List (SkippableResult FsPath) × FS :=
  match files with
  | [] => ([], fs)
  | file :: rest =>
    let r := copyStep dest overwrite file fs
    let rs := copy rest dest overwrite r.2
    (r.1 :: rs.1, rs.2)

/-- Body of the per-file closure of `mv` in `event.rs` (overwrite passed through). -/
def mvStep (dest : FsPath) (overwrite : Bool) (file : FsPath) (fs : FS) :
    SkippableResult FsPath × FS :=
  match pathName file with
  | some file_name =>
    if fs.is_dir dest then
      if !overwrite && fs.exists_ (dest ++ [file_name]) then (.Skipped, fs)
      else
        match moveItems file dest overwrite false fs with
        | .ok fs2 => (.Ok file, fs2)
        | .error e => (.Err e, fs)
    else (.Err "is not a directory", fs)
  | none => (.Err "has no file name", fs)

/-- Rust `mv` from `event.rs`. -/
def mv (files : List FsPath) (dest : FsPath) (overwrite : Bool) (fs : FS) :
    List (SkippableResult FsPath) × FS :=
  match files with
  | [] => ([], fs)
  | file :: rest =>
    let r := mvStep dest overwrite file fs
    let rs := mv rest dest overwrite r.2
    (r.1 :: rs.1, rs.2)

/-- Rust `trash` from `event.rs` (textually identical with the `rule.rs` version). -/
def trash (files : List FsPath) (fs : FS) : List (SkippableResult FsPath) × FS :=
  match files with
  | [] => ([], fs)
  | file :: rest =>
    let r := RuleIter.trashStep file fs
    let rs := trash rest r.2
    (r.1 :: rs.1, rs.2)

end EventIter

/-- Rust `Event` from `rule.rs` (the iteration used by `Rule` and the executor). -/
inductive Event where
  | Copy (expr : TagExpr) (target : FsPath) (overwrite : Bool)
  | Move (expr : TagExpr) (target : FsPath) (overwrite : Bool)
  | Trash (expr : TagExpr)
  deriving DecidableEq

/-- Rust `Event::copy`; the home directory returned by `home::home_dir().unwrap()`
is a parameter of the model. -/
def Event.copy (home : FsPath) : Event :=
  .Copy TagExpr.default home false

/-- Rust `Event::mv`. -/
def Event.mv (home : FsPath) : Event :=
  .Move TagExpr.default home false

/-- Rust `Event::trash`. -/
def Event.trash : Event :=
  .Trash TagExpr.default

/-- Rust `Event::set_path`; the `unreachable!()` panic on `Trash` is `none`. -/
def Event.set_path (e : Event) (p : FsPath) : Option Event :=
  match e with
  | .Copy expr _ overwrite => some (.Copy expr p overwrite)
  | .Move expr _ overwrite => some (.Move expr p overwrite)
  | .Trash _ => none

/-- Rust `Event::tag_expr`. -/
def Event.tag_expr (e : Event) : TagExpr :=
  match e with
  | .Copy expr _ _ => expr
  | .Move expr _ _ => expr
  | .Trash expr => expr

/-- The `target` component bound by the dispatch match of `Event::execute`:
the target directory for `Copy` and `Move`, absent for `Trash`. -/
def Event.target? (e : Event) : Option FsPath :=
  match e with
  | .Copy _ target _ => some target
  | .Move _ target _ => some target
  | .Trash _ => none

/-- Rust `LogEntry` from `log.rs` (`Local::now()` passed in as `time`). -/
structure LogEntry where
  event : Event
  source : Option FsPath
  file : FsPath
  time : Nat
  deriving DecidableEq

/-- Rust `LogEntry::new`. -/
def LogEntry.new (event : Event) (source : Option FsPath) (file : FsPath) (time : Nat) :
    LogEntry :=
  { event := event, source := source, file := file, time := time }

/-- The comparator of `read_path` in `fs.rs`: folders first, then by name. -/
def cmpName (a b : Option String) : Ordering :=
  match a, b with
  | none, none => .eq
  | none, some _ => .lt
  | some _, none => .gt
  | some x, some y => compare x y

/-- Item ordering used by the `sort_by` call of `read_path`. -/
def cmpItems (a b : Item) : Ordering :=
  match a.file_type, b.file_type with
  | .Dir, .Dir => cmpName a.name b.name
  | .Dir, _ => .lt
  | _, .Dir => .gt
  | _, _ => cmpName a.name b.name

/-- Stable insertion for the model of the (stable) `sort_by`. -/
def insertSorted (x : Item) : List Item → List Item
  | [] => [x]
  | y :: ys => if cmpItems x y = .lt then x :: y :: ys else y :: insertSorted x ys

/-- Stable sort by `cmpItems`. -/
def sortItems (l : List Item) : List Item :=
  l.foldl (fun acc x => insertSorted x acc) []

/-- Rust `read_path` from `fs.rs`: a directory that cannot be read is a wholesale
error; entries whose item construction fails are silently dropped; the result
is sorted folders-first.  The `Item::try_from` of the missing module file is
modelled as `Item::new` from `item.rs`. -/
def read_path (env : FSEnv) (path : FsPath) : Except String (List Item) :=
  match env.readDir path with
  | .error e => .error e
  | .ok names =>
    .ok (sortItems (names.filterMap (fun n => (Item.new env (path ++ [n])).toOption)))

/-- The filter of `Event::execute`: keep items whose tag expression evaluates
`Ok(true)` (threading the mutation), drop evaluation errors and `Ok(false)`,
then take the paths. -/
def selectedFiles (env : FSEnv) (expr : TagExpr) (items : List Item) : List FsPath :=
  (items.filterMap (fun item =>
    match TagExpr.is env expr item with
    | .ok (true, item2) => some item2
    | _ => none)).map (fun item => item.path)

/-- Rust `Event::execute` from `rule.rs`. -/
def Event.execute (env : FSEnv) (e : Event) (path : FsPath) (fs : FS) :
    Except String (List (SkippableResult LogEntry) × FS) :=
  match read_path env path with
  | .error err => .error err
  | .ok items =>
    let files := selectedFiles env e.tag_expr items
    let dispatched :=
      match e with
      | .Copy _ target overwrite => (some target, RuleIter.copy files target overwrite fs)
      | .Move _ target overwrite => (some target, RuleIter.mv files target overwrite fs)
      | .Trash _ => (none, RuleIter.trash files fs)
    .ok (dispatched.2.1.map (fun result =>
      match result with
      | .Ok file => .Ok (LogEntry.new e dispatched.1 file env.now)
      | .Skipped => .Skipped
      | .Err er => .Err er), dispatched.2.2)

/-- The inner `for result in results` of the worker loop in `executor.rs`:
`Ok` entries are pushed to the log, `Err` is printed, `Skipped` ignored. -/
def processResults (log : List LogEntry) (results : List (SkippableResult LogEntry)) :
    List LogEntry :=
  results.foldl (fun l result =>
    match result with
    | .Ok entry => l ++ [entry]
    | .Skipped => l
    | .Err _ => l) log

/-- Rust `Rule` from `rule.rs`. -/
structure Rule where
  title : String
  events : List Event
  deriving DecidableEq

/-- One `event.execute(dir)` call of the worker loop: outcomes are folded into
the log, a wholesale error is printed and the loop continues. -/
def execEvent (env : FSEnv) (dir : FsPath) (e : Event) (st : FS × List LogEntry) :
    FS × List LogEntry :=
  match Event.execute env e dir st.1 with
  | .ok (results, fs2) => (fs2, processResults st.2 results)
  | .error _ => st

/-- One full pass of the worker loop: every event of every rule of every
watched directory, in map order. -/
def runPass (env : FSEnv) (ruleMap : List (FsPath × List Rule)) (st : FS × List LogEntry) :
    FS × List LogEntry :=
  ruleMap.foldl (fun st2 dr =>
    dr.2.foldl (fun st3 rule =>
      rule.events.foldl (fun st4 ev => execEvent env dr.1 ev st4) st3) st2) st

/-- State of the spawned worker loop of `Executor::restart`: whether a
`StopMessage` is waiting in the channel, whether the loop has returned, the
filesystem and log it works on, and how many full passes have begun. -/
structure WorkerState where
  stopPending : Bool
  returned : Bool
  fs : FS
  log : List LogEntry
  ticks : Nat
  deriving DecidableEq

/-- One iteration of the worker loop: `try_recv` first — a pending stop makes
the loop return before any work — otherwise one full pass runs (then the loop
sleeps, which the model elides). -/
def workerStep (env : FSEnv) (ruleMap : List (FsPath × List Rule)) (s : WorkerState) :
    WorkerState :=
  if s.returned then s
  else if s.stopPending then { s with returned := true }
  else
    let st := runPass env ruleMap (s.fs, s.log)
    { s with fs := st.1, log := st.2, ticks := s.ticks + 1 }

/-- Iterate the worker loop a given number of further times. -/
def workerRun (env : FSEnv) (ruleMap : List (FsPath × List Rule)) :
    Nat → WorkerState → WorkerState
  | 0, s => s
  | n + 1, s => workerRun env ruleMap n (workerStep env ruleMap s)

/-- Rust `Executor` from `executor.rs`: the foreground handle (`sender.is_some()`
is the Running state; the shared log is elided here, the worker carries it). -/
structure Executor where
  sender : Option Unit
  deriving DecidableEq

/-- Rust `Executor::stop`: `sender.take()` plus a non-blocking `send(StopMessage)`
into the worker channel when a loop is running. -/
def Executor.stop (ex : Executor) (w : WorkerState) : Executor × WorkerState :=
  match ex.sender with
  | some _ => ({ sender := none }, { w with stopPending := true })
  | none => (ex, w)

/-- A concrete quiescent environment: every directory empty, every file
regular, the clock at 7. -/
def envEmpty : FSEnv :=
  { symlinkMeta := fun _ => .ok { fileType := .File, created := 0, modified := 0 }
  , metaCreated := fun _ => .ok 0
  , dirSize := fun _ => .ok 0
  , pathIsDir := fun _ => false
  , childCount := fun _ => .ok 0
  , inferGet := fun _ => .ok none
  , readDir := fun _ => .ok []
  , now := 7 }

/-- A concrete environment whose directory listing always fails. -/
def envUnlistable : FSEnv :=
  { envEmpty with readDir := fun _ => .error "Permission denied" }

/-- A concrete environment in which every path currently is a directory of
size 5 (used to replay a snapshot after the filesystem changed under it). -/
def envNowDir : FSEnv :=
  { envEmpty with
    symlinkMeta := fun _ => .ok { fileType := .Dir, created := 3, modified := 4 }
  , dirSize := fun _ => .ok 5 }

/-- The payload of an `Ok` outcome, if any (spec-side helper: exactly the
outcomes the worker loop pushes to the activity log). -/
def okOutcome : SkippableResult LogEntry → Option LogEntry
  | .Ok entry => some entry
  | .Skipped => none
  | .Err _ => none

/-! ## Helper lemmas -/

theorem decide_beq_true (b : Bool) : decide (b = true) = b := by
  cases b <;> simp

theorem workerStep_returned (env : FSEnv) (ruleMap : List (FsPath × List Rule))
    (s : WorkerState) (h : s.returned = true) : workerStep env ruleMap s = s := by
  simp [workerStep, h]

theorem workerRun_returned (env : FSEnv) (ruleMap : List (FsPath × List Rule))
    (n : Nat) (s : WorkerState) (h : s.returned = true) : workerRun env ruleMap n s = s := by
  induction n with
  | zero => rfl
  | succ n ih => rw [workerRun, workerStep_returned env ruleMap s h, ih]

theorem rule_copy_length (files : List FsPath) (dest : FsPath) (overwrite : Bool) (fs : FS) :
    (RuleIter.copy files dest overwrite fs).1.length = files.length := by
  induction files generalizing fs with
  | nil => rfl
  | cons f rest ih => simp [RuleIter.copy, ih]

theorem rule_mv_length (files : List FsPath) (dest : FsPath) (overwrite : Bool) (fs : FS) :
    (RuleIter.mv files dest overwrite fs).1.length = files.length := by
  induction files generalizing fs with
  | nil => rfl
  | cons f rest ih => simp [RuleIter.mv, ih]

theorem rule_trash_length (files : List FsPath) (fs : FS) :
    (RuleIter.trash files fs).1.length = files.length := by
  induction files generalizing fs with
  | nil => rfl
  | cons f rest ih => simp [RuleIter.trash, ih]

theorem event_copy_length (files : List FsPath) (dest : FsPath) (overwrite : Bool) (fs : FS) :
    (EventIter.copy files dest overwrite fs).1.length = files.length := by
  induction files generalizing fs with
  | nil => rfl
  | cons f rest ih => simp [EventIter.copy, ih]

theorem event_mv_length (files : List FsPath) (dest : FsPath) (overwrite : Bool) (fs : FS) :
    (EventIter.mv files dest overwrite fs).1.length = files.length := by
  induction files generalizing fs with
  | nil => rfl
  | cons f rest ih => simp [EventIter.mv, ih]

theorem event_trash_length (files : List FsPath) (fs : FS) :
    (EventIter.trash files fs).1.length = files.length := by
  induction files generalizing fs with
  | nil => rfl
  | cons f rest ih => simp [EventIter.trash, ih]

theorem rule_copy_append (xs ys : List FsPath) (dest : FsPath) (overwrite : Bool) (fs : FS) :
    RuleIter.copy (xs ++ ys) dest overwrite fs =
      ((RuleIter.copy xs dest overwrite fs).1 ++
        (RuleIter.copy ys dest overwrite (RuleIter.copy xs dest overwrite fs).2).1,
       (RuleIter.copy ys dest overwrite (RuleIter.copy xs dest overwrite fs).2).2) := by
  induction xs generalizing fs with
  | nil => simp [RuleIter.copy]
  | cons x xs ih => simp [RuleIter.copy, ih]

theorem rule_mv_append (xs ys : List FsPath) (dest : FsPath) (overwrite : Bool) (fs : FS) :
    RuleIter.mv (xs ++ ys) dest overwrite fs =
      ((RuleIter.mv xs dest overwrite fs).1 ++
        (RuleIter.mv ys dest overwrite (RuleIter.mv xs dest overwrite fs).2).1,
       (RuleIter.mv ys dest overwrite (RuleIter.mv xs dest overwrite fs).2).2) := by
  induction xs generalizing fs with
  | nil => simp [RuleIter.mv]
  | cons x xs ih => simp [RuleIter.mv, ih]

theorem rule_trash_append (xs ys : List FsPath) (fs : FS) :
    RuleIter.trash (xs ++ ys) fs =
      ((RuleIter.trash xs fs).1 ++ (RuleIter.trash ys (RuleIter.trash xs fs).2).1,
       (RuleIter.trash ys (RuleIter.trash xs fs).2).2) := by
  induction xs generalizing fs with
  | nil => simp [RuleIter.trash]
  | cons x xs ih => simp [RuleIter.trash, ih]

theorem event_copy_append (xs ys : List FsPath) (dest : FsPath) (overwrite : Bool) (fs : FS) :
    EventIter.copy (xs ++ ys) dest overwrite fs =
      ((EventIter.copy xs dest overwrite fs).1 ++
        (EventIter.copy ys dest overwrite (EventIter.copy xs dest overwrite fs).2).1,
       (EventIter.copy ys dest overwrite (EventIter.copy xs dest overwrite fs).2).2) := by
  induction xs generalizing fs with
  | nil => simp [EventIter.copy]
  | cons x xs ih => simp [EventIter.copy, ih]

theorem event_mv_append (xs ys : List FsPath) (dest : FsPath) (overwrite : Bool) (fs : FS) :
    EventIter.mv (xs ++ ys) dest overwrite fs =
      ((EventIter.mv xs dest overwrite fs).1 ++
        (EventIter.mv ys dest overwrite (EventIter.mv xs dest overwrite fs).2).1,
       (EventIter.mv ys dest overwrite (EventIter.mv xs dest overwrite fs).2).2) := by
  induction xs generalizing fs with
  | nil => simp [EventIter.mv]
  | cons x xs ih => simp [EventIter.mv, ih]

theorem event_trash_append (xs ys : List FsPath) (fs : FS) :
    EventIter.trash (xs ++ ys) fs =
      ((EventIter.trash xs fs).1 ++ (EventIter.trash ys (EventIter.trash xs fs).2).1,
       (EventIter.trash ys (EventIter.trash xs fs).2).2) := by
  induction xs generalizing fs with
  | nil => simp [EventIter.trash]
  | cons x xs ih => simp [EventIter.trash, ih]

theorem isAux_false (env : FSEnv) (singles : List SingleTag) (item : Item) :
    TagExpr.isAux env singles false item = .ok (false, item) := by
  induction singles with
  | nil => rfl
  | cons s rest ih => simp [TagExpr.isAux, ih]

theorem is_eq_isAux (env : FSEnv) (e : TagExpr) (item : Item) :
    TagExpr.is env e item = TagExpr.isAux env (e.head :: e.rest) true item := by
  simp only [TagExpr.is, TagExpr.isAux, Bind.bind, Except.bind, if_true]
  cases SingleTag.is env e.head item with
  | error er => rfl
  | ok bi => rfl

theorem isAux_true_iff (env : FSEnv) (singles : List SingleTag) :
    ∀ (item out : Item),
      TagExpr.isAux env singles true item = .ok (true, out) ↔
        evalAllTerms env singles item = .ok (true, out) := by
  induction singles with
  | nil => intro item out; simp [TagExpr.isAux, evalAllTerms]
  | cons s rest ih =>
    intro item out
    simp only [TagExpr.isAux, if_true, evalAllTerms, Bind.bind, Except.bind]
    cases hs : SingleTag.is env s item with
    | error er => simp
    | ok bi =>
      obtain ⟨b0, item2⟩ := bi
      cases b0 with
      | true =>
        cases he : evalAllTerms env rest item2 with
        | error er => simp [he, ih item2 out]
        | ok bs => obtain ⟨bs1, item3⟩ := bs; simp [he, ih item2 out]
      | false =>
        cases he : evalAllTerms env rest item2 with
        | error er => simp [he, isAux_false]
        | ok bs => obtain ⟨bs1, item3⟩ := bs; simp [he, isAux_false]

theorem evalAll_isAux_proj (env : FSEnv) (singles : List SingleTag) :
    ∀ (item : Item) (b : Bool) (out : Item),
      evalAllTerms env singles item = .ok (b, out) →
      ∃ out2 : Item, TagExpr.isAux env singles true item = .ok (b, out2) := by
  induction singles with
  | nil =>
    intro item b out h
    simp only [evalAllTerms, Except.ok.injEq, Prod.mk.injEq] at h
    exact ⟨item, by simp [TagExpr.isAux, ← h.1]⟩
  | cons s rest ih =>
    intro item b out h
    cases hs : SingleTag.is env s item with
    | error er => simp [evalAllTerms, Bind.bind, Except.bind, hs] at h
    | ok bi =>
      obtain ⟨b0, item2⟩ := bi
      cases he : evalAllTerms env rest item2 with
      | error er => simp [evalAllTerms, Bind.bind, Except.bind, hs, he] at h
      | ok bs =>
        obtain ⟨bs1, item3⟩ := bs
        simp only [evalAllTerms, Bind.bind, Except.bind, hs, he, Except.ok.injEq,
          Prod.mk.injEq] at h
        simp only [TagExpr.isAux, if_true, hs]
        cases b0 with
        | true =>
          obtain ⟨out2, hout⟩ := ih item2 bs1 item3 he
          exact ⟨out2, by rw [hout, ← h.1]; simp⟩
        | false =>
          exact ⟨item2, by rw [isAux_false, ← h.1]; simp⟩

theorem any_eq_one_le_countP (t : Tag) (l : List SingleTag) :
    l.any (fun single => decide (single.tag = t)) =
      decide (1 ≤ l.countP (fun single => decide (single.tag = t))) := by
  induction l with
  | nil => simp
  | cons x xs ih =>
    by_cases hx : x.tag = t
    · simp [List.any_cons, List.countP_cons, hx]
    · simp [List.any_cons, List.countP_cons, hx, ih]

theorem findIdx_erase_any (t : Tag) (l : List SingleTag) :
    ((match l.findIdx? (fun single => decide (single.tag = t)) with
      | some i => l.eraseIdx i
      | none => l : List SingleTag)).any (fun single => decide (single.tag = t)) =
      decide (2 ≤ l.countP (fun single => decide (single.tag = t))) := by
  induction l with
  | nil => simp
  | cons x xs ih =>
    rw [List.findIdx?_cons]
    by_cases hx : x.tag = t
    · simp only [hx, decide_True, if_true, List.eraseIdx]
      rw [any_eq_one_le_countP, List.countP_cons]
      simp only [hx, decide_True, if_true]
      exact decide_eq_decide.mpr (by omega)
    · simp only [hx, decide_False, if_false]
      rw [List.findIdx?_succ]
      cases hf : xs.findIdx? (fun single => decide (single.tag = t)) with
      | none =>
        rw [hf] at ih
        simp only [Option.map_none'] at ih ⊢
        simp [List.any_cons, List.countP_cons, hx, ih]
      | some i =>
        rw [hf] at ih
        simp only [Option.map_some'] at ih ⊢
        simp [List.any_cons, List.countP_cons, List.eraseIdx, hx, ih]

theorem processResults_eq_append (results : List (SkippableResult LogEntry)) :
    ∀ log : List LogEntry, processResults log results = log ++ results.filterMap okOutcome := by
  induction results with
  | nil => intro log; simp [processResults]
  | cons r rs ih =>
    intro log
    have hstep : processResults log (r :: rs) =
        processResults (match r with
          | .Ok entry => log ++ [entry]
          | .Skipped => log
          | .Err _ => log) rs := rfl
    rw [hstep]
    cases r with
    | Ok entry => rw [ih]; simp [okOutcome, List.filterMap_cons]
    | Skipped => rw [ih]; simp [okOutcome, List.filterMap_cons]
    | Err er => rw [ih]; simp [okOutcome, List.filterMap_cons]

/-! ## Claims -/

/-- C6 as amended: `has(t)` is true iff `t` structurally equals the head tag
or some rest term's tag; after `remove(t)`, `has(t)` is false unless a
duplicate term for the same tag existed (two or more terms carrying `t`) or
`t` was the expression's sole term — removing a matching head with no rest
terms is a no-op, because the expression must never become empty. -/
theorem has_remove_characterization :
    ∀ (e : TagExpr) (t : Tag),
      (e.has t = true ↔ (e.head.tag = t ∨ ∃ s ∈ e.rest, s.tag = t)) ∧
      ((e.remove t).has t = true ↔
        (2 ≤ tagCount e t ∨ (e.head.tag = t ∧ e.rest = []))) := by
  intro e t
  obtain ⟨hd, rest⟩ := e
  constructor
  · simp [TagExpr.has, List.any_eq_true]
  · by_cases h1 : hd.tag = t
    · cases rest with
      | nil =>
        simp [TagExpr.remove, TagExpr.has, tagCount, h1]
      | cons r0 rs =>
        have hrem : TagExpr.remove { head := hd, rest := r0 :: rs } t =
            { head := r0, rest := rs } := by
          simp [TagExpr.remove, h1]
        rw [hrem]
        have hany : ({ head := r0, rest := rs } : TagExpr).has t =
            (r0 :: rs).any (fun single => decide (single.tag = t)) := by
          simp [TagExpr.has, List.any_cons]
        rw [hany, any_eq_one_le_countP]
        simp only [tagCount, h1, if_true, decide_eq_true_eq, List.cons_ne_self,
          and_false, or_false, reduceCtorEq]
        omega
    · have hrem : TagExpr.remove { head := hd, rest := rest } t =
          { head := hd
          , rest :=
              match rest.findIdx? (fun single => decide (single.tag = t)) with
              | some i => rest.eraseIdx i
              | none => rest } := by
        rw [TagExpr.remove]
        simp only [h1, false_and, if_false]
        cases hf : rest.findIdx? (fun single => decide (single.tag = t)) <;> simp
      rw [hrem]
      have hhas : ∀ l : List SingleTag,
          ({ head := hd, rest := l } : TagExpr).has t =
            l.any (fun single => decide (single.tag = t)) := by
        intro l
        simp [TagExpr.has, h1]
      rw [hhas, findIdx_erase_any]
      simp only [tagCount, h1, if_false, decide_eq_true_eq, false_and, or_false,
        Nat.zero_add]

/-- C6 counterexample: on an expression whose sole term is the Dummy tag,
`remove` is a no-op — the head is only replaced when rest terms remain — so
`has` still answers true afterwards although the expression carries exactly
one term for that tag (no duplicate remains). -/
theorem remove_sole_head_keeps_has :
    ((TagExpr.new Tag.dummy true).remove Tag.dummy).has Tag.dummy = true ∧
    tagCount (TagExpr.new Tag.dummy true) Tag.dummy = 1 := by
  constructor
  · simp [TagExpr.new, TagExpr.remove, TagExpr.has]
  · simp [TagExpr.new, tagCount]

/-- C6 witness: `has` answers true on a concrete expression headed by the
matching tag. -/
theorem has_remove_characterization_witness :
    (TagExpr.new Tag.dummy true).has Tag.dummy = true :=
  (has_remove_characterization (TagExpr.new Tag.dummy true) Tag.dummy).1.mpr
    (Or.inl rfl)

/-- C1: `TagExpr::is` succeeds with `true` exactly when evaluating every term
(head and each rest term) in sequence yields a basis result equal to the
term's `used` (included) flag — a negated term inverts its basis result — and
whenever the full signed conjunction of all terms evaluates successfully,
`TagExpr::is` succeeds with that conjunction as its value (the returned item
may differ only because a false term lets `&&` short-circuit the rest). -/
theorem evaluate_is_signed_conjunction :
    ∀ (env : FSEnv) (e : TagExpr) (item : Item),
      (∀ out : Item,
        TagExpr.is env e item = .ok (true, out) ↔
          evalAllTerms env (e.head :: e.rest) item = .ok (true, out)) ∧
      (∀ (b : Bool) (out : Item),
        evalAllTerms env (e.head :: e.rest) item = .ok (b, out) →
          ∃ out2 : Item, TagExpr.is env e item = .ok (b, out2)) := by
  intro env e item
  constructor
  · intro out
    rw [is_eq_isAux, isAux_true_iff]
  · intro b out h
    obtain ⟨out2, hout⟩ := evalAll_isAux_proj env (e.head :: e.rest) item b out h
    exact ⟨out2, by rw [is_eq_isAux]; exact hout⟩

/-- C1 witness: the default (single positive Dummy term) expression evaluates
to `true` on an item literally named `dummy.test`, with the reference
all-terms conjunction agreeing. -/
theorem evaluate_is_signed_conjunction_witness :
    evalAllTerms envEmpty [SingleTag.default]
      { path := ["dummy.test"], file_type := .File, size? := none,
        creation_time := 0, modified_time := 0 } =
      .ok (true,
        { path := ["dummy.test"], file_type := .File, size? := none,
          creation_time := 0, modified_time := 0 }) :=
  ((evaluate_is_signed_conjunction envEmpty TagExpr.default
    { path := ["dummy.test"], file_type := .File, size? := none,
      creation_time := 0, modified_time := 0 }).1
    { path := ["dummy.test"], file_type := .File, size? := none,
      creation_time := 0, modified_time := 0 }).mp rfl

/-- C4: every batch executor (`copy`, `mv`, `trash`, in both the `rule.rs`
and the `event.rs` iteration) returns exactly one outcome per input path, in
input order, and processing a prefix of the batch — whatever its outcomes,
`Err` and `Skipped` included — never prevents the remaining inputs from being
processed and receiving their own outcomes: the outcome list of `xs ++ ys` is
the outcome list of `xs` followed by the outcome list of `ys` run on the state
`xs` left behind. -/
theorem batch_one_outcome_per_input_in_order :
    ∀ (fs : FS) (dest : FsPath) (overwrite : Bool) (xs ys : List FsPath),
      (RuleIter.copy xs dest overwrite fs).1.length = xs.length ∧
      (RuleIter.mv xs dest overwrite fs).1.length = xs.length ∧
      (RuleIter.trash xs fs).1.length = xs.length ∧
      (EventIter.copy xs dest overwrite fs).1.length = xs.length ∧
      (EventIter.mv xs dest overwrite fs).1.length = xs.length ∧
      (EventIter.trash xs fs).1.length = xs.length ∧
      RuleIter.copy (xs ++ ys) dest overwrite fs =
        ((RuleIter.copy xs dest overwrite fs).1 ++
          (RuleIter.copy ys dest overwrite (RuleIter.copy xs dest overwrite fs).2).1,
         (RuleIter.copy ys dest overwrite (RuleIter.copy xs dest overwrite fs).2).2) ∧
      RuleIter.mv (xs ++ ys) dest overwrite fs =
        ((RuleIter.mv xs dest overwrite fs).1 ++
          (RuleIter.mv ys dest overwrite (RuleIter.mv xs dest overwrite fs).2).1,
         (RuleIter.mv ys dest overwrite (RuleIter.mv xs dest overwrite fs).2).2) ∧
      RuleIter.trash (xs ++ ys) fs =
        ((RuleIter.trash xs fs).1 ++ (RuleIter.trash ys (RuleIter.trash xs fs).2).1,
         (RuleIter.trash ys (RuleIter.trash xs fs).2).2) ∧
      EventIter.copy (xs ++ ys) dest overwrite fs =
        ((EventIter.copy xs dest overwrite fs).1 ++
          (EventIter.copy ys dest overwrite (EventIter.copy xs dest overwrite fs).2).1,
         (EventIter.copy ys dest overwrite (EventIter.copy xs dest overwrite fs).2).2) ∧
      EventIter.mv (xs ++ ys) dest overwrite fs =
        ((EventIter.mv xs dest overwrite fs).1 ++
          (EventIter.mv ys dest overwrite (EventIter.mv xs dest overwrite fs).2).1,
         (EventIter.mv ys dest overwrite (EventIter.mv xs dest overwrite fs).2).2) ∧
      EventIter.trash (xs ++ ys) fs =
        ((EventIter.trash xs fs).1 ++ (EventIter.trash ys (EventIter.trash xs fs).2).1,
         (EventIter.trash ys (EventIter.trash xs fs).2).2) :=
  fun fs dest overwrite xs ys =>
    ⟨rule_copy_length xs dest overwrite fs, rule_mv_length xs dest overwrite fs,
     rule_trash_length xs fs, event_copy_length xs dest overwrite fs,
     event_mv_length xs dest overwrite fs, event_trash_length xs fs,
     rule_copy_append xs ys dest overwrite fs, rule_mv_append xs ys dest overwrite fs,
     rule_trash_append xs ys fs, event_copy_append xs ys dest overwrite fs,
     event_mv_append xs ys dest overwrite fs, event_trash_append xs ys fs⟩

/-- A concrete filesystem: a source file `src/f.txt` (content 1), an existing
target directory `tgt` that already contains `tgt/f.txt` (content 2). -/
def fsConflict : FS :=
  { entries := [ (["src", "f.txt"], .file 1), (["tgt"], .dir), (["tgt", "f.txt"], .file 2) ] }

/-- C2: on a source whose name already exists in the target directory with
`overwrite = true`, the `rule.rs` `copy` produces an `Err` outcome — it never
passes `overwrite` into `fs_extra::dir::CopyOptions`, so `copy_items` aborts
on the existing target — leaving the filesystem unchanged, whereas the
`event.rs` `copy` (whose own `copy_overwrite` test asserts this) yields `Ok`,
replaces the target entry with the source content, and leaves the source in
place. -/
theorem copy_overwrite_bug_rule_iteration :
    (RuleIter.copy [["src", "f.txt"]] ["tgt"] true fsConflict).1 = [.Err "Path exists"] ∧
    (RuleIter.copy [["src", "f.txt"]] ["tgt"] true fsConflict).2 = fsConflict ∧
    (EventIter.copy [["src", "f.txt"]] ["tgt"] true fsConflict).1 = [.Ok ["src", "f.txt"]] ∧
    (EventIter.copy [["src", "f.txt"]] ["tgt"] true fsConflict).2.lookup ["tgt", "f.txt"] =
      some (.file 1) ∧
    (EventIter.copy [["src", "f.txt"]] ["tgt"] true fsConflict).2.lookup ["src", "f.txt"] =
      some (.file 1) := by
  refine ⟨?_, ?_, ?_, ?_, ?_⟩ <;> decide

/-- C3 counterexample: an item created while `a` was a regular file, queried
for its size after `a` became a directory on disk, comes back with
`file_type = Dir` — the size query replaced the snapshot and re-derived the
file type from a fresh `symlink_metadata` call, so `file_type` is not left
equal to the value fixed at the original creation. -/
theorem size_recomputes_file_type_counterexample :
    Item.new envEmpty ["a"] =
      .ok { path := ["a"], file_type := .File, size? := none,
            creation_time := 0, modified_time := 0 } ∧
    Item.size envNowDir
      { path := ["a"], file_type := .File, size? := none,
        creation_time := 0, modified_time := 0 } =
      .ok (5, { path := ["a"], file_type := .Dir, size? := some 5,
                creation_time := 3, modified_time := 4 }) ∧
    FileType.Dir ≠ FileType.File := by
  refine ⟨rfl, rfl, by decide⟩

/-- C3 as amended: a successful `size()` query leaves `file_type` unchanged
provided the fresh `symlink_metadata` read (performed when the size was not
yet cached, because the whole snapshot is replaced) still reports the type the
item was created with; with a cached size the snapshot is untouched. -/
theorem size_preserves_file_type_if_type_unchanged :
    ∀ (env : FSEnv) (item : Item) (s : Nat) (item2 : Item),
      Item.size env item = .ok (s, item2) →
      (∀ m, env.symlinkMeta item.path = .ok m → m.fileType = item.file_type) →
      item2.file_type = item.file_type := by
  intro env item s item2 hsize hmeta
  cases hc : item.size? with
  | some sz =>
    simp only [Item.size, hc, Except.ok.injEq, Prod.mk.injEq] at hsize
    rw [← hsize.2]
  | none =>
    simp only [Item.size, hc, Item.new_with_size, Item.new, Bind.bind, Except.bind] at hsize
    cases hd : env.dirSize item.path with
    | error e => rw [hd] at hsize; simp at hsize
    | ok sz =>
      rw [hd] at hsize
      cases hm : env.symlinkMeta item.path with
      | error e => rw [hm] at hsize; simp at hsize
      | ok m =>
        rw [hm] at hsize
        simp only [Except.ok.injEq, Prod.mk.injEq] at hsize
        rw [← hsize.2]
        exact hmeta m hm

/-- C3 witness: a concrete uncached size query under an unchanged filesystem
keeps the file type. -/
theorem size_preserves_file_type_witness :
    Item.size envEmpty
      { path := ["b"], file_type := .File, size? := none,
        creation_time := 0, modified_time := 0 } =
      .ok (0, { path := ["b"], file_type := .File, size? := some 0,
                creation_time := 0, modified_time := 0 }) ∧
    ({ path := ["b"], file_type := .File, size? := some 0,
       creation_time := 0, modified_time := 0 } : Item).file_type =
      ({ path := ["b"], file_type := .File, size? := none,
         creation_time := 0, modified_time := 0 } : Item).file_type :=
  ⟨rfl, size_preserves_file_type_if_type_unchanged envEmpty _ 0 _ rfl
    (fun m h => by injection h with h2; rw [← h2])⟩

/-- C10: `Event::set_path` hits `unreachable!` (modelled as `none`) on a
`Trash` event for every path argument, while on `Copy` and `Move` events it
replaces the target path in place, leaving the tag expression and the
overwrite flag unchanged. -/
theorem set_path_trash_panics_copy_move_in_place :
    (∀ (expr : TagExpr) (p : FsPath), Event.set_path (.Trash expr) p = none) ∧
    (∀ (expr : TagExpr) (target : FsPath) (overwrite : Bool) (p : FsPath),
      Event.set_path (.Copy expr target overwrite) p = some (.Copy expr p overwrite)) ∧
    (∀ (expr : TagExpr) (target : FsPath) (overwrite : Bool) (p : FsPath),
      Event.set_path (.Move expr target overwrite) p = some (.Move expr p overwrite)) :=
  ⟨fun _ _ => rfl, fun _ _ _ _ => rfl, fun _ _ _ _ => rfl⟩

/-- C9: the default tag expression is the single positive term wrapping the
placeholder Dummy tag whose basis is `Name "dummy.test"`; the `copy`, `mv` and
`trash` event constructors use it, and evaluating it on any item (under any
environment) succeeds and is true exactly when the item is literally named
`dummy.test`. -/
theorem default_expr_is_dummy_name :
    TagExpr.default = { head := { tag := Tag.dummy, used := true }, rest := [] } ∧
    Tag.dummy.basis = Base.Name "dummy.test" ∧
    (∀ home : FsPath, (Event.copy home).tag_expr = TagExpr.default) ∧
    (∀ home : FsPath, (Event.mv home).tag_expr = TagExpr.default) ∧
    Event.trash.tag_expr = TagExpr.default ∧
    (∀ (env : FSEnv) (item : Item),
      TagExpr.is env TagExpr.default item =
        .ok (decide (item.name = some "dummy.test"), item)) := by
  refine ⟨rfl, rfl, fun _ => rfl, fun _ => rfl, rfl, fun env item => ?_⟩
  simp [TagExpr.is, TagExpr.default, SingleTag.default, SingleTag.is, Tag.is, Tag.dummy,
    Base.is, TagExpr.isAux, Bind.bind, Except.bind, decide_beq_true]

/-- C5: whenever `Event::execute` succeeds, its outcome list is the raw
per-path outcome list with exactly the `Ok` outcomes converted into log
entries — each carrying the originating event, the event's target directory
(absent exactly for Trash events) and the affected path, stamped with the
current time — while `Skipped` and `Err` pass through unconverted; the worker
loop then appends exactly the `Ok` entries to the activity log, so `Skipped`
and `Err` outcomes produce no log entry. -/
theorem ok_outcomes_become_log_entries :
    ∀ (env : FSEnv) (e : Event) (path : FsPath) (fs : FS)
      (rs : List (SkippableResult LogEntry)) (fs2 : FS),
      Event.execute env e path fs = .ok (rs, fs2) →
      (∃ raw : List (SkippableResult FsPath),
        rs = raw.map (fun result =>
          match result with
          | .Ok file => .Ok (LogEntry.new e e.target? file env.now)
          | .Skipped => .Skipped
          | .Err er => .Err er)) ∧
      (∀ log : List LogEntry, processResults log rs = log ++ rs.filterMap okOutcome) ∧
      (e.target? = none ↔ ∃ expr, e = Event.Trash expr) := by
  intro env e path fs rs fs2 hex
  refine ⟨?_, fun log => processResults_eq_append rs log, ?_⟩
  · cases hr : read_path env path with
    | error er => rw [Event.execute, hr] at hex; cases hex
    | ok items =>
      cases e with
      | Copy expr target overwrite =>
        simp only [Event.execute, hr, Event.tag_expr, Event.target?] at hex ⊢
        simp only [Except.ok.injEq, Prod.mk.injEq] at hex
        exact ⟨_, hex.1.symm⟩
      | Move expr target overwrite =>
        simp only [Event.execute, hr, Event.tag_expr, Event.target?] at hex ⊢
        simp only [Except.ok.injEq, Prod.mk.injEq] at hex
        exact ⟨_, hex.1.symm⟩
      | Trash expr =>
        simp only [Event.execute, hr, Event.tag_expr, Event.target?] at hex ⊢
        simp only [Except.ok.injEq, Prod.mk.injEq] at hex
        exact ⟨_, hex.1.symm⟩
  · cases e with
    | Copy expr target overwrite => simp [Event.target?]
    | Move expr target overwrite => simp [Event.target?]
    | Trash expr => simp [Event.target?]

/-- C5 witness: a Trash event on a concretely empty directory executes to an
empty outcome list, and pushing it into an empty log leaves the log empty. -/
theorem ok_outcomes_become_log_entries_witness :
    processResults [] ([] : List (SkippableResult LogEntry)) = [] := by
  have h := ok_outcomes_become_log_entries envEmpty Event.trash ["d"]
    { entries := [] } [] { entries := [] } rfl
  simpa using h.2.1 []

/-- C7: `Event::execute` on a directory that cannot be listed fails wholesale
with the listing error (no per-item outcomes); when listing succeeds it always
returns an outcome list with exactly one outcome per selected item; and an
item whose tag-expression evaluation returns an error is excluded from the
dispatched batch while the remaining items are filtered unchanged. -/
theorem execute_listing_error_and_item_exclusion :
    ∀ (env : FSEnv) (e : Event) (path : FsPath) (fs : FS),
      (∀ err : String, read_path env path = .error err →
        Event.execute env e path fs = .error err) ∧
      (∀ items : List Item, read_path env path = .ok items →
        ∃ (rs : List (SkippableResult LogEntry)) (fs2 : FS),
          Event.execute env e path fs = .ok (rs, fs2) ∧
          rs.length = (selectedFiles env e.tag_expr items).length) ∧
      (∀ (item : Item) (rest : List Item) (err : String),
        TagExpr.is env e.tag_expr item = .error err →
        selectedFiles env e.tag_expr (item :: rest) =
          selectedFiles env e.tag_expr rest) := by
  intro env e path fs
  refine ⟨?_, ?_, ?_⟩
  · intro err h
    rw [Event.execute, h]
  · intro items h
    cases e with
    | Copy expr target overwrite =>
      refine ⟨(RuleIter.copy (selectedFiles env expr items) target overwrite fs).1.map
          (fun result =>
            match result with
            | .Ok file =>
              .Ok (LogEntry.new (Event.Copy expr target overwrite) (some target) file env.now)
            | .Skipped => .Skipped
            | .Err er => .Err er),
        (RuleIter.copy (selectedFiles env expr items) target overwrite fs).2, ?_, ?_⟩
      · simp only [Event.execute, h, Event.tag_expr]
      · simp only [Event.tag_expr, List.length_map]
        exact rule_copy_length _ target overwrite fs
    | Move expr target overwrite =>
      refine ⟨(RuleIter.mv (selectedFiles env expr items) target overwrite fs).1.map
          (fun result =>
            match result with
            | .Ok file =>
              .Ok (LogEntry.new (Event.Move expr target overwrite) (some target) file env.now)
            | .Skipped => .Skipped
            | .Err er => .Err er),
        (RuleIter.mv (selectedFiles env expr items) target overwrite fs).2, ?_, ?_⟩
      · simp only [Event.execute, h, Event.tag_expr]
      · simp only [Event.tag_expr, List.length_map]
        exact rule_mv_length _ target overwrite fs
    | Trash expr =>
      refine ⟨(RuleIter.trash (selectedFiles env expr items) fs).1.map
          (fun result =>
            match result with
            | .Ok file => .Ok (LogEntry.new (Event.Trash expr) none file env.now)
            | .Skipped => .Skipped
            | .Err er => .Err er),
        (RuleIter.trash (selectedFiles env expr items) fs).2, ?_, ?_⟩
      · simp only [Event.execute, h, Event.tag_expr]
      · simp only [Event.tag_expr, List.length_map]
        exact rule_trash_length _ fs
  · intro item rest err h
    simp [selectedFiles, List.filterMap_cons, h]

/-- C7 witness: executing a Trash event against a concretely unlistable
directory returns exactly the listing error. -/
theorem execute_listing_error_witness :
    Event.execute envUnlistable Event.trash ["d"] { entries := [] } =
      .error "Permission denied" :=
  (execute_listing_error_and_item_exclusion envUnlistable Event.trash ["d"]
    { entries := [] }).1 "Permission denied" rfl

/-- C8: once `stop()` is called on a running scheduler, the sender is taken
(Running becomes Idle on the foreground handle) and a stop message reaches the
worker channel; the worker loop observes it at the next tick boundary and
returns before beginning any pass, so the tick counter never increases again. -/
theorem stop_terminates_before_next_tick :
    ∀ (env : FSEnv) (ruleMap : List (FsPath × List Rule)) (ex : Executor) (w : WorkerState),
      ex.sender.isSome = true → w.returned = false →
      (Executor.stop ex w).1.sender = none ∧
      (Executor.stop ex w).2.stopPending = true ∧
      workerStep env ruleMap (Executor.stop ex w).2 =
        { (Executor.stop ex w).2 with returned := true } ∧
      (workerStep env ruleMap (Executor.stop ex w).2).ticks = w.ticks ∧
      (∀ n : Nat,
        (workerRun env ruleMap n (workerStep env ruleMap (Executor.stop ex w).2)).ticks =
          w.ticks) := by
  intro env ruleMap ex w hsend hret
  match hs : ex.sender with
  | none => rw [hs] at hsend; simp at hsend
  | some u =>
    have hstop : Executor.stop ex w =
        ({ sender := none }, { w with stopPending := true }) := by
      simp [Executor.stop, hs]
    rw [hstop]
    have hstep : workerStep env ruleMap { w with stopPending := true } =
        { w with stopPending := true, returned := true } := by
      simp [workerStep, hret]
    refine ⟨rfl, rfl, hstep, by rw [hstep], fun n => ?_⟩
    rw [hstep, workerRun_returned env ruleMap n _ rfl]

/-- C8 witness: stopping a concrete running scheduler with an empty rule map
leaves the tick counter at zero forever after. -/
theorem stop_terminates_before_next_tick_witness :
    (workerRun envEmpty []
      3 (workerStep envEmpty []
        ((Executor.stop { sender := some () }
          { stopPending := false, returned := false, fs := { entries := [] }, log := [],
            ticks := 0 }).2))).ticks = 0 :=
  (stop_terminates_before_next_tick envEmpty [] { sender := some () }
    { stopPending := false, returned := false, fs := { entries := [] }, log := [], ticks := 0 }
    rfl rfl).2.2.2.2 3

end Course
